import Mathlib

/-!
Shallow embedding of the reader-side DDS sample history cache
(`DataReaderHistory.cpp`): the change store, the keyed instance table,
admission control under the four `(has_keys, history_kind)` strategies,
key resolution, removal, and deadline tracking.

Machine integers (`int32_t`, `size_t`) are modelled as `Nat`; all values of
interest stay far below the respective bounds and no arithmetic overflows.
`CacheChange_t*` pointers are modelled as values carrying a `ptr` identity
field: pointer comparison is `ptr` equality. An `InstanceHandle_t` is a
`Nat`, with `0` playing the role of the all-zero "undefined" handle
(`isDefined` is `≠ 0`). `std::map` is an association list kept sorted by
key; iteration order is list order (= key order). `steady_clock`
timestamps are `Nat`.
-/

set_option maxRecDepth 10000

/-- DDS history kinds (`KEEP_ALL_HISTORY_QOS` / `KEEP_LAST_HISTORY_QOS`). -/
inductive HistoryKind where
  | KEEP_ALL
  | KEEP_LAST
deriving DecidableEq

/-- One received sample (`CacheChange_t`). `ptr` is the identity of the heap
object, used wherever the C++ compares raw pointers. `instanceHandle = 0`
means the handle is undefined. `payloadKey` models what deserializing the
payload and calling `type_->getKey` would yield (`none` = extraction fails). -/
structure CacheChange where
  ptr : Nat
  sequenceNumber : Nat
  writerGUID : Nat
  instanceHandle : Nat
  payloadKey : Option Nat
deriving DecidableEq

/-- Per-instance state (`eprosima::fastrtps::KeyedChanges`): the ordered
sample list and the next-deadline timestamp; default-constructed empty. -/
structure KeyedChanges where
  cache_changes : List CacheChange := []
  next_deadline_us : Nat := 0
deriving DecidableEq

/-- Lookup in the instance table (`std::map::find`). -/
def mapFind (m : List (Nat × KeyedChanges)) (k : Nat) : Option KeyedChanges :=
  match m with
  | [] => none
  | e :: rest => if e.1 = k then some e.2 else mapFind rest k

/-- Sorted insertion into the instance table (`std::map::insert`); an
already-present key is left untouched, as `insert` does. -/
def mapInsert (k : Nat) (v : KeyedChanges) : List (Nat × KeyedChanges) → List (Nat × KeyedChanges)
  | [] => [(k, v)]
  | e :: rest =>
    if k < e.1 then (k, v) :: e :: rest
    else if k = e.1 then e :: rest
    else e :: mapInsert k v rest

/-- Erase the entry with key `k` (`std::map::erase` of the iterator found at
that key; keys are unique in a map, so removing every entry with key `k`
removes exactly that node). -/
def mapErase (k : Nat) : List (Nat × KeyedChanges) → List (Nat × KeyedChanges)
  | [] => []
  | e :: rest => if e.1 = k then mapErase k rest else e :: mapErase k rest

/-- Update the entry at key `k` in place (mutation through a map iterator /
`operator[]` on a present key). -/
def mapSet (k : Nat) (f : KeyedChanges → KeyedChanges)
    (m : List (Nat × KeyedChanges)) : List (Nat × KeyedChanges) :=
  m.map (fun e => if e.1 = k then (e.1, f e.2) else e)

/-- Position of the first element satisfying `p` (`std::find_if` as an index). -/
def findFirstIdx (p : α → Bool) : List α → Option Nat
  | [] => none
  | a :: l => if p a then some 0 else (findFirstIdx p l).map (· + 1)

/-- First element satisfying `p` (`std::find_if` as a value). -/
def findFirst? (p : α → Bool) : List α → Option α
  | [] => none
  | a :: l => if p a then some a else findFirst? p l

/-- Erase the first element satisfying `p` (`vector::erase` of the iterator
found by a linear scan); the list is unchanged when no element matches. -/
def eraseFirstBy (p : α → Bool) : List α → List α
  | [] => []
  | a :: l => if p a then l else a :: eraseFirstBy p l

/-- The comparison used when scanning an instance list for a change:
`(*chit)->sequenceNumber == change->sequenceNumber && (*chit)->writerGUID == change->writerGUID`. -/
def matchesSeqGuid (change c : CacheChange) : Bool :=
  c.sequenceNumber == change.sequenceNumber && c.writerGUID == change.writerGUID

/-- `std::numeric_limits<int32_t>::max()`. -/
def int32Max : Nat := 2147483647

/-- `HistoryQosPolicy`: kind and depth. -/
structure HistoryQosPolicy where
  kind : HistoryKind
  depth : Nat
deriving DecidableEq

/-- `ResourceLimitsQosPolicy`. -/
structure ResourceLimitsQosPolicy where
  max_samples : Nat
  max_instances : Nat
  max_samples_per_instance : Nat
  allocated_samples : Nat
deriving DecidableEq

/-- The QoS snapshot consumed by the history. -/
structure DataReaderQos where
  history : HistoryQosPolicy
  resource_limits : ResourceLimitsQosPolicy
deriving DecidableEq

/-- The slice of `HistoryAttributes` the history logic reads (the memory
policy and payload size only parameterize the payload pool). -/
structure HistoryAttributes where
  initialReservedCaches : Nat
  maximumReservedCaches : Nat
deriving DecidableEq

/-- `to_history_attributes`: for `KEEP_ALL` the raw resource limits; for
`KEEP_LAST` the cap is `depth` (unkeyed) or `depth * max_instances` (keyed),
with the initial reservation clamped to the cap. -/
def to_history_attributes (isGetKeyDefined : Bool) (qos : DataReaderQos) : HistoryAttributes :=
  let initial_samples := qos.resource_limits.allocated_samples
  let max_samples := qos.resource_limits.max_samples
  if qos.history.kind ≠ HistoryKind.KEEP_ALL then
    let m := if isGetKeyDefined then qos.history.depth * qos.resource_limits.max_instances
             else qos.history.depth
    { initialReservedCaches := min initial_samples m, maximumReservedCaches := m }
  else
    { initialReservedCaches := initial_samples, maximumReservedCaches := max_samples }

/-- The state of a `DataReaderHistory` (own fields plus the inherited
`ReaderHistory` fields it touches). `mp_reader` / `mp_mutex` record whether
the corresponding pointer is non-null. -/
structure HistoryState where
  mp_reader : Bool
  mp_mutex : Bool
  has_keys : Bool
  type_is_null : Bool
  kind : HistoryKind
  depth : Nat
  max_samples : Nat
  max_instances : Nat
  max_samples_per_instance : Nat
  maximumReservedCaches : Nat
  m_isHistoryFull : Bool
  m_changes : List CacheChange
  keyed_changes : List (Nat × KeyedChanges)
  next_deadline_us : Nat
deriving DecidableEq

/-- The constructor `DataReaderHistory::DataReaderHistory`: derives the
change-store capacity from the raw QoS, then rewrites zero resource limits
in the member copy to `int32_t` max ("unlimited"). -/
def mkDataReaderHistory (isGetKeyDefined : Bool) (type_is_null : Bool)
    (qos : DataReaderQos) : HistoryState :=
  let att := to_history_attributes isGetKeyDefined qos
  { mp_reader := false
    mp_mutex := false
    has_keys := isGetKeyDefined
    type_is_null := type_is_null
    kind := qos.history.kind
    depth := qos.history.depth
    max_samples :=
      if qos.resource_limits.max_samples = 0 then int32Max else qos.resource_limits.max_samples
    max_instances :=
      if qos.resource_limits.max_instances = 0 then int32Max else qos.resource_limits.max_instances
    max_samples_per_instance :=
      if qos.resource_limits.max_samples_per_instance = 0 then int32Max
      else qos.resource_limits.max_samples_per_instance
    maximumReservedCaches := att.maximumReservedCaches
    m_isHistoryFull := false
    m_changes := []
    keyed_changes := []
    next_deadline_us := 0 }

/-- Attachment of the enclosing reader: installs the reader back-pointer and
the mutex. -/
def attachReader (st : HistoryState) : HistoryState :=
  { st with mp_reader := true, mp_mutex := true }

/-- `DataReaderHistory::find_key`: look the handle up; otherwise insert an
empty entry while below `max_instances`; otherwise reclaim the first entry
with an empty `cache_changes`; otherwise fail. Only the instance table is
touched, so the function returns the success flag and the new table
(the found/inserted entry is the one keyed by `handle`). -/
def find_key (st : HistoryState) (handle : Nat) : Bool × List (Nat × KeyedChanges) :=
  match mapFind st.keyed_changes handle with
  | some _ => (true, st.keyed_changes)
  | none =>
    if st.keyed_changes.length < st.max_instances then
      (true, mapInsert handle {} st.keyed_changes)
    else
      match findFirst? (fun e => e.2.cache_changes.isEmpty) st.keyed_changes with
      | some e => (true, mapInsert handle {} (mapErase e.1 st.keyed_changes))
      | none => (false, st.keyed_changes)

/-- `DataReaderHistory::find_key_for_change`: when the handle is undefined
and a type object exists, extract the key from the payload (writing it into
the change's `instanceHandle`); an undefined handle with no type object is
rejected; then delegate to `find_key`. Returns the key of the resolved
entry (`none` on failure), the new instance table, and the possibly
updated change. -/
def find_key_for_change (st : HistoryState) (a_change : CacheChange) :
    Option Nat × List (Nat × KeyedChanges) × CacheChange :=
  if a_change.instanceHandle = 0 ∧ st.type_is_null = false then
    match a_change.payloadKey with
    | none => (none, st.keyed_changes, a_change)
    | some k =>
      match find_key st k with
      | (true, table) => (some k, table, { a_change with instanceHandle := k })
      | (false, table) => (none, table, { a_change with instanceHandle := k })
  else if a_change.instanceHandle = 0 then
    (none, st.keyed_changes, a_change)
  else
    match find_key st a_change.instanceHandle with
    | (true, table) => (some a_change.instanceHandle, table, a_change)
    | (false, table) => (none, table, a_change)

/-- Modelled from the spec: the base change-store operation
`ReaderHistory::add_change` is not under `src/`; per the spec the store is
append-only (capacity is enforced by the callers through `is_full`), so the
change is appended at the tail and the operation succeeds. -/
def add_change (st : HistoryState) (a_change : CacheChange) : Bool × HistoryState :=
  (true, { st with m_changes := st.m_changes ++ [a_change] })

/-- `DataReaderHistory::add_received_change`: refuse when the history is
full; otherwise append, and raise `m_isHistoryFull` when the store reaches
`m_att.maximumReservedCaches`. -/
def add_received_change (st : HistoryState) (a_change : CacheChange) : Bool × HistoryState :=
  if st.m_isHistoryFull then (false, st)
  else
    match add_change st a_change with
    | (true, st1) =>
      if st1.m_changes.length = st1.maximumReservedCaches then
        (true, { st1 with m_isHistoryFull := true })
      else (true, st1)
    | (false, st1) => (false, st1)

/-- Tail-append of an accepted change into its instance entry (the C++
mutates the `cache_changes` vector of the entry the caller's iterator
points to; the entry is identified here by its key). -/
def pushInstance (st : HistoryState) (a_change : CacheChange) (key : Nat) : HistoryState :=
  { st with keyed_changes :=
      (mapSet key (fun e => { e with cache_changes := e.cache_changes ++ [a_change] })
        st.keyed_changes) }

/-- `DataReaderHistory::add_received_change_with_key`: as
`add_received_change`, but the accepted change is also appended at the tail
of its instance entry. -/
def add_received_change_with_key (st : HistoryState) (a_change : CacheChange) (key : Nat) :
    Bool × HistoryState :=
  if st.m_isHistoryFull then (false, st)
  else
    match add_change st a_change with
    | (true, st1) =>
      if st1.m_changes.length = st1.maximumReservedCaches then
        (true, pushInstance { st1 with m_isHistoryFull := true } a_change key)
      else (true, pushInstance st1 a_change key)
    | (false, st1) => (false, st1)

/-- Modelled from the spec: the base `History::find_change_nts` is not under
`src/`; it locates the stored change matching the argument by sequence
number and writer GUID, returned here as an index into the store. -/
def find_change_nts (st : HistoryState) (a_change : CacheChange) : Option Nat :=
  findFirstIdx (matchesSeqGuid a_change) st.m_changes

/-- `DataReaderHistory::remove_change_nts` (the virtual override), combined
with the base-class step it delegates to. The override scrubs every
reference to the removed sample (raw-pointer comparison) from its instance
entry when the topic is keyed and the handle defined. The base
`ReaderHistory::remove_change_nts` is not under `src/` and is modelled from
the spec: it erases the store position, keeps `is_full` equal to
"store at capacity" (hence clears it), and returns the next position. An
end iterator (index out of range) removes nothing. -/
def remove_change_nts (st : HistoryState) (removal : Nat) : HistoryState × Nat :=
  match st.m_changes.get? removal with
  | none => (st, st.m_changes.length)
  | some p_sample =>
    ({ st with
        keyed_changes :=
          (if p_sample.instanceHandle ≠ 0 ∧ st.has_keys = true then
            mapSet p_sample.instanceHandle
              (fun e => { e with cache_changes :=
                  (e.cache_changes.filter (fun x => x.ptr != p_sample.ptr)) })
              st.keyed_changes
          else st.keyed_changes),
        m_changes := st.m_changes.eraseIdx removal,
        m_isHistoryFull := false }, removal)

/-- Modelled from the spec: the base `ReaderHistory::remove_change` is not
under `src/`; it locates the change (`find_change_nts`) and removes it
through the virtual `remove_change_nts`, which dispatches to the override
above. Fails when the change is not in the store. -/
def remove_change (st : HistoryState) (a_change : CacheChange) : Bool × HistoryState :=
  match find_change_nts st a_change with
  | none => (false, st)
  | some i => (true, (remove_change_nts st i).1)

/-- The keyed block of `DataReaderHistory::remove_change_sub(change)`:
locate the owning entry with `find_key` and erase the first sample of the
entry matching `(sequenceNumber, writerGUID)`; a miss only logs. -/
def keyedScrub (st : HistoryState) (change : CacheChange) : List (Nat × KeyedChanges) :=
  if st.has_keys then
    match find_key st change.instanceHandle with
    | (true, table) =>
      mapSet change.instanceHandle
        (fun e => { e with cache_changes :=
            (eraseFirstBy (matchesSeqGuid change) e.cache_changes) })
        table
    | (false, table) => table
  else st.keyed_changes

/-- `DataReaderHistory::remove_change_sub(change)`: fails before the reader
is attached; otherwise scrubs the keyed entry, then removes from the store,
clearing `m_isHistoryFull` on success. -/
def remove_change_sub (st : HistoryState) (change : CacheChange) : Bool × HistoryState :=
  if st.mp_reader = false ∨ st.mp_mutex = false then (false, st)
  else
    match remove_change { st with keyed_changes := keyedScrub st change } change with
    | (true, st2) => (true, { st2 with m_isHistoryFull := false })
    | (false, st2) => (false, st2)

/-- The `cache_changes` list of the entry at `key` (the entry is present at
every use site: `find_key` has just succeeded for `key`). -/
def instanceChanges (m : List (Nat × KeyedChanges)) (key : Nat) : List CacheChange :=
  ((mapFind m key).getD {}).cache_changes

/-- The keyed block of `DataReaderHistory::remove_change_sub(change, it)`:
as `keyedScrub`, but the erase is performed through an iterator whose
post-erase position (the index of the erased element within the instance
list) is written back into the caller's iterator. -/
def keyedScrubIt (st : HistoryState) (change : CacheChange) (it : Nat) :
    List (Nat × KeyedChanges) × Nat :=
  if st.has_keys then
    match find_key st change.instanceHandle with
    | (true, table) =>
      match findFirstIdx (matchesSeqGuid change) (instanceChanges table change.instanceHandle) with
      | some p =>
        (mapSet change.instanceHandle
          (fun e => { e with cache_changes := e.cache_changes.eraseIdx p }) table, p)
      | none => (table, it)
    | (false, table) => (table, it)
  else (st.keyed_changes, it)

/-- `DataReaderHistory::remove_change_sub(change, it)`: the iterator form.
After the keyed scrub, the change is located in the store
(`find_change_nts`); a miss fails. On success `m_isHistoryFull` is cleared,
the store position is removed, and, only for unkeyed topics, the caller's
iterator is set to the store position returned by `remove_change_nts`. -/
def remove_change_sub_it (st : HistoryState) (change : CacheChange) (it : Nat) :
    Bool × HistoryState × Nat :=
  if st.mp_reader = false ∨ st.mp_mutex = false then (false, st, it)
  else
    match keyedScrubIt st change it with
    | (table1, it1) =>
      match find_change_nts { st with keyed_changes := table1 } change with
      | none => (false, { st with keyed_changes := table1 }, it1)
      | some i =>
        match remove_change_nts { st with keyed_changes := table1, m_isHistoryFull := false } i with
        | (st3, ret) => if st.has_keys then (true, st3, it1) else (true, st3, ret)

/-- `DataReaderHistory::received_change_keep_all_no_key`: accept while the
store plus the expected in-flight lower-numbered samples stay below
`max_samples`. -/
def received_change_keep_all_no_key (st : HistoryState) (a_change : CacheChange)
    (unknown_missing_changes_up_to : Nat) : Bool × HistoryState :=
  if st.m_changes.length + unknown_missing_changes_up_to < st.max_samples then
    add_received_change st a_change
  else (false, st)

/-- `DataReaderHistory::received_change_keep_last_no_key`: accept below
`depth`, else substitute the oldest sample (`m_changes.at(0)`) via
`remove_change_sub` first. `none` models `at(0)` raising `out_of_range`
on an empty store (only possible when `depth = 0`). -/
def received_change_keep_last_no_key (st : HistoryState) (a_change : CacheChange) :
    Option (Bool × HistoryState) :=
  if st.m_changes.length < st.depth then
    some (add_received_change st a_change)
  else
    match st.m_changes with
    | [] => none
    | front :: _ =>
      match remove_change_sub st front with
      | (true, st1) => some (add_received_change st1 a_change)
      | (false, st1) => some (false, st1)

/-- `DataReaderHistory::received_change_keep_all_with_key`: resolve the
instance, then accept while the entry stays below
`max_samples_per_instance`; no eviction. -/
def received_change_keep_all_with_key (st : HistoryState) (a_change : CacheChange) :
    Bool × HistoryState × CacheChange :=
  match find_key_for_change st a_change with
  | (some k, table, c1) =>
    if (instanceChanges table k).length < st.max_samples_per_instance then
      match add_received_change_with_key { st with keyed_changes := table } c1 k with
      | (b, st2) => (b, st2, c1)
    else (false, { st with keyed_changes := table }, c1)
  | (none, table, c1) => (false, { st with keyed_changes := table }, c1)

/-- `DataReaderHistory::received_change_keep_last_with_key`: resolve the
instance; accept below `depth`, else substitute the oldest sample of the
entry (`instance_changes.at(0)`) via `remove_change_sub` first. `none`
models `at(0)` raising on an empty entry (only possible when `depth = 0`). -/
def received_change_keep_last_with_key (st : HistoryState) (a_change : CacheChange) :
    Option (Bool × HistoryState × CacheChange) :=
  match find_key_for_change st a_change with
  | (some k, table, c1) =>
    if (instanceChanges table k).length < st.depth then
      match add_received_change_with_key { st with keyed_changes := table } c1 k with
      | (b, st2) => some (b, st2, c1)
    else
      match instanceChanges table k with
      | [] => none
      | front :: _ =>
        match remove_change_sub { st with keyed_changes := table } front with
        | (true, st2) =>
          match add_received_change_with_key st2 c1 k with
          | (b, st3) => some (b, st3, c1)
        | (false, st2) => some (false, st2, c1)
  | (none, table, c1) => some (false, { st with keyed_changes := table }, c1)

/-- `DataReaderHistory::received_change`: fails before the reader is
attached, otherwise dispatches to the strategy bound at construction from
`(has_keys, history.kind)`. The result carries the success flag, the new
state, and the (possibly key-annotated) change. -/
def received_change (st : HistoryState) (a_change : CacheChange)
    (unknown_missing_changes_up_to : Nat) : Option (Bool × HistoryState × CacheChange) :=
  if st.mp_reader = false ∨ st.mp_mutex = false then some (false, st, a_change)
  else
    match st.has_keys, st.kind with
    | false, HistoryKind.KEEP_ALL =>
      match received_change_keep_all_no_key st a_change unknown_missing_changes_up_to with
      | (b, st1) => some (b, st1, a_change)
    | false, HistoryKind.KEEP_LAST =>
      (received_change_keep_last_no_key st a_change).map (fun r => (r.1, r.2, a_change))
    | true, HistoryKind.KEEP_ALL => some (received_change_keep_all_with_key st a_change)
    | true, HistoryKind.KEEP_LAST => received_change_keep_last_with_key st a_change

/-- `DataReaderHistory::set_next_deadline`: fails unattached; unkeyed writes
the single global deadline; keyed requires the handle to be present and
updates its entry. -/
def set_next_deadline (st : HistoryState) (handle : Nat) (deadline : Nat) :
    Bool × HistoryState :=
  if st.mp_reader = false ∨ st.mp_mutex = false then (false, st)
  else if st.has_keys = false then (true, { st with next_deadline_us := deadline })
  else
    match mapFind st.keyed_changes handle with
    | none => (false, st)
    | some _ =>
      (true, { st with keyed_changes :=
          (mapSet handle (fun e => { e with next_deadline_us := deadline }) st.keyed_changes) })

/-- Outcome of `DataReaderHistory::get_next_deadline`: `fail` is the
unattached `return false`; `okNoKey` / `okKey` carry the values written to
the out parameters; `undef` marks the keyed branch dereferencing
`min_element`'s end iterator on an empty instance table. -/
inductive DeadlineResult where
  | fail
  | okNoKey (t : Nat)
  | okKey (h : Nat) (t : Nat)
  | undef
deriving DecidableEq

/-- `DataReaderHistory::get_next_deadline`: fails unattached; unkeyed reads
the global deadline; keyed takes `std::min_element` (first minimum under a
strict comparison of `next_deadline_us`) over the instance table and
dereferences it unconditionally. -/
def get_next_deadline (st : HistoryState) : DeadlineResult :=
  if st.mp_reader = false ∨ st.mp_mutex = false then DeadlineResult.fail
  else if st.has_keys = false then DeadlineResult.okNoKey st.next_deadline_us
  else
    match st.keyed_changes with
    | [] => DeadlineResult.undef
    | e :: rest =>
      let m := rest.foldl
        (fun acc y => if y.2.next_deadline_us < acc.2.next_deadline_us then y else acc) e
      DeadlineResult.okKey m.1 m.2.next_deadline_us

/-- `DataReaderHistory::lookup_instance` (no attachment guard and no lock in
the source). Unkeyed: only the fictitious instance (handle `value[0] = 1`,
modelled as `1`) holding the whole store, and only for an undefined handle
with `exact = false`. Keyed: exact map lookup, or `std::upper_bound` (the
first entry with key strictly greater, in key order). The third component
is the `cache_changes` pointer (`none` = null). -/
def lookup_instance (st : HistoryState) (handle : Nat) (exact : Bool) :
    Bool × Nat × Option (List CacheChange) :=
  if st.has_keys = false then
    if handle ≠ 0 then (false, 0, none)
    else if exact then (false, 0, none)
    else (true, 1, some st.m_changes)
  else
    if exact then
      match mapFind st.keyed_changes handle with
      | some e => (true, handle, some e.cache_changes)
      | none => (false, 0, none)
    else
      match findFirst? (fun e => decide (handle < e.1)) st.keyed_changes with
      | some e => (true, e.1, some e.2.cache_changes)
      | none => (false, 0, none)

/-- Sequential delivery of a list of samples through `received_change`,
collecting each admission flag; `none` when a delivery is undefined. -/
def deliverFlags (st : HistoryState) : List CacheChange → Option (List Bool × HistoryState)
  | [] => some ([], st)
  | c :: cs =>
    match received_change st c 0 with
    | none => none
    | some r => (deliverFlags r.2.1 cs).map (fun q => (r.1 :: q.1, q.2))

/-! Concrete fixtures used by the scenario parts of the theorems below. -/

/-- An unkeyed sample: `ptr` and sequence number `n`, one writer, undefined
handle, no key in the payload. -/
def sampleN (n : Nat) : CacheChange :=
  { ptr := n, sequenceNumber := n, writerGUID := 100, instanceHandle := 0, payloadKey := none }

/-- QoS for the KEEP_LAST depth-3 unkeyed scenario. -/
def qosC1 : DataReaderQos :=
  { history := { kind := HistoryKind.KEEP_LAST, depth := 3 },
    resource_limits := { max_samples := 10, max_instances := 5,
                         max_samples_per_instance := 10, allocated_samples := 0 } }

/-- KEEP_LAST depth-3 unkeyed history, reader attached. -/
def stC1 : HistoryState := attachReader (mkDataReaderHistory false false qosC1)

/-- QoS for the KEEP_ALL `max_samples = 2` unkeyed scenario. -/
def qosC6 : DataReaderQos :=
  { history := { kind := HistoryKind.KEEP_ALL, depth := 1 },
    resource_limits := { max_samples := 2, max_instances := 1,
                         max_samples_per_instance := 1, allocated_samples := 0 } }

/-- KEEP_ALL `max_samples = 2` unkeyed history, reader attached. -/
def stC6 : HistoryState := attachReader (mkDataReaderHistory false false qosC6)

/-- Keyed sample 1 of instance 1. -/
def chA1 : CacheChange :=
  { ptr := 1, sequenceNumber := 1, writerGUID := 7, instanceHandle := 1, payloadKey := none }

/-- Keyed sample 2 of instance 1. -/
def chA2 : CacheChange :=
  { ptr := 2, sequenceNumber := 2, writerGUID := 7, instanceHandle := 1, payloadKey := none }

/-- Keyed sample 3, belonging to the fresh instance 2. -/
def chB3 : CacheChange :=
  { ptr := 3, sequenceNumber := 3, writerGUID := 7, instanceHandle := 2, payloadKey := none }

/-- A keyed KEEP_ALL history at capacity (`is_full`, two stored samples of
instance 1), with room in the instance table. -/
def stC2 : HistoryState :=
  { mp_reader := true, mp_mutex := true, has_keys := true, type_is_null := false,
    kind := HistoryKind.KEEP_ALL, depth := 1, max_samples := 10, max_instances := 2,
    max_samples_per_instance := 10, maximumReservedCaches := 2, m_isHistoryFull := true,
    m_changes := [chA1, chA2],
    keyed_changes := [(1, { cache_changes := [chA1, chA2], next_deadline_us := 0 })],
    next_deadline_us := 0 }

/-- Sample of instance 1 stored first. -/
def chb1 : CacheChange :=
  { ptr := 10, sequenceNumber := 1, writerGUID := 200, instanceHandle := 1, payloadKey := none }

/-- First sample of instance 2. -/
def cha1 : CacheChange :=
  { ptr := 11, sequenceNumber := 2, writerGUID := 200, instanceHandle := 2, payloadKey := none }

/-- Second sample of instance 2. -/
def cha2 : CacheChange :=
  { ptr := 12, sequenceNumber := 3, writerGUID := 200, instanceHandle := 2, payloadKey := none }

/-- A keyed history whose store interleaves two instances: store
`[chb1, cha1, cha2]`, instance 1 holding `[chb1]`, instance 2 holding
`[cha1, cha2]`. -/
def stC9 : HistoryState :=
  { mp_reader := true, mp_mutex := true, has_keys := true, type_is_null := false,
    kind := HistoryKind.KEEP_LAST, depth := 2, max_samples := 100, max_instances := 10,
    max_samples_per_instance := 10, maximumReservedCaches := 100, m_isHistoryFull := false,
    m_changes := [chb1, cha1, cha2],
    keyed_changes := [(1, { cache_changes := [chb1], next_deadline_us := 0 }),
                      (2, { cache_changes := [cha1, cha2], next_deadline_us := 0 })],
    next_deadline_us := 0 }

/-- A keyed attached history with three empty instances 1, 2, 3. -/
def stC8 : HistoryState :=
  { mp_reader := true, mp_mutex := true, has_keys := true, type_is_null := false,
    kind := HistoryKind.KEEP_LAST, depth := 2, max_samples := 100, max_instances := 10,
    max_samples_per_instance := 10, maximumReservedCaches := 100, m_isHistoryFull := false,
    m_changes := [],
    keyed_changes := [(1, {}), (2, {}), (3, {})],
    next_deadline_us := 0 }

/-- `stC8` after `set_next_deadline` of instance 1 to 100, 2 to 50, 3 to 75. -/
def stC8d : HistoryState :=
  (set_next_deadline (set_next_deadline (set_next_deadline stC8 1 100).2 2 50).2 3 75).2

/-- An unkeyed history before the reader is attached. -/
def stC5 : HistoryState := mkDataReaderHistory false false qosC1

/-- Invariant I4 of the spec: the store never exceeds the capacity derived
at construction (`m_att.maximumReservedCaches`, the spec's
`max_total_samples`), and `m_isHistoryFull` caches "store at capacity". -/
def historyInvariant (st : HistoryState) : Prop :=
  st.m_changes.length ≤ st.maximumReservedCaches ∧
  st.m_isHistoryFull = decide (st.m_changes.length = st.maximumReservedCaches)

instance (st : HistoryState) : Decidable (historyInvariant st) := by
  unfold historyInvariant; infer_instance

/-! Helper lemmas. -/

theorem findFirstIdx_lt_length {p : α → Bool} {l : List α} {i : Nat}
    (h : findFirstIdx p l = some i) : i < l.length := by
  induction l generalizing i with
  | nil => simp [findFirstIdx] at h
  | cons a l ih =>
    unfold findFirstIdx at h
    split at h
    · cases h; simp
    · cases hi : findFirstIdx p l with
      | none => rw [hi] at h; simp at h
      | some j =>
        rw [hi] at h
        simp only [Option.map_some'] at h
        cases h
        have := ih hi
        simp
        omega

theorem findFirst?_mem {p : α → Bool} {l : List α} {a : α}
    (h : findFirst? p l = some a) : a ∈ l ∧ p a = true := by
  induction l with
  | nil => simp [findFirst?] at h
  | cons b l ih =>
    unfold findFirst? at h
    split at h
    · cases h; exact ⟨List.mem_cons_self _ _, by assumption⟩
    · have := ih h
      exact ⟨List.mem_cons_of_mem _ this.1, this.2⟩

theorem foldlMin_mem (l : List (Nat × KeyedChanges)) (a : Nat × KeyedChanges) :
    l.foldl (fun acc y => if y.2.next_deadline_us < acc.2.next_deadline_us then y else acc) a
      ∈ a :: l := by
  induction l generalizing a with
  | nil => simp
  | cons y ys ih =>
    simp only [List.foldl_cons]
    have h := ih (if y.2.next_deadline_us < a.2.next_deadline_us then y else a)
    rcases List.mem_cons.mp h with h1 | h1
    · rw [h1]; split
      · simp
      · simp
    · simp [h1]

theorem foldlMin_le (l : List (Nat × KeyedChanges)) (a : Nat × KeyedChanges) :
    ∀ x ∈ a :: l,
      (l.foldl (fun acc y => if y.2.next_deadline_us < acc.2.next_deadline_us then y else acc)
        a).2.next_deadline_us ≤ x.2.next_deadline_us := by
  induction l generalizing a with
  | nil =>
    intro x hx
    simp at hx
    subst hx
    simp
  | cons y ys ih =>
    intro x hx
    simp only [List.foldl_cons]
    have hstepa :
        (if y.2.next_deadline_us < a.2.next_deadline_us then y else a).2.next_deadline_us ≤
          a.2.next_deadline_us := by split <;> omega
    have hstepy :
        (if y.2.next_deadline_us < a.2.next_deadline_us then y else a).2.next_deadline_us ≤
          y.2.next_deadline_us := by split <;> omega
    rcases List.mem_cons.mp hx with rfl | hx1
    · exact le_trans (ih _ _ (List.mem_cons_self _ _)) hstepa
    · rcases List.mem_cons.mp hx1 with rfl | hx2
      · exact le_trans (ih _ _ (List.mem_cons_self _ _)) hstepy
      · exact ih _ x (List.mem_cons_of_mem _ hx2)

/-! Claim C10. -/

/-- C10: on a keyed, attached history, `get_next_deadline` is well-defined
exactly when the instance table is non-empty; with an empty table the
result is the marker for dereferencing `min_element`'s end iterator, so a
caller must ensure at least one instance entry exists. -/
theorem c10_get_next_deadline_needs_nonempty_table (st : HistoryState)
    (hk : st.has_keys = true) (hr : st.mp_reader = true) (hm : st.mp_mutex = true) :
    get_next_deadline st = DeadlineResult.undef ↔ st.keyed_changes = [] := by
  cases h : st.keyed_changes with
  | nil => simp [get_next_deadline, hk, hr, hm, h]
  | cons e rest => simp [get_next_deadline, hk, hr, hm, h]

/-- C10 witness: `stC8` is keyed, attached, has a non-empty table, and its
`get_next_deadline` is well-defined. -/
theorem c10_witness :
    (stC8.has_keys = true ∧ stC8.mp_reader = true ∧ stC8.mp_mutex = true) ∧
    (get_next_deadline stC8 = DeadlineResult.undef ↔ stC8.keyed_changes = []) :=
  ⟨⟨rfl, rfl, rfl⟩, c10_get_next_deadline_needs_nonempty_table stC8 rfl rfl rfl⟩

/-! Claim C5. -/

/-- C5 counterexample: `lookup_instance` performs no attachment check in the
source; on an unattached unkeyed history, looking up the undefined handle
with `exact = false` returns `true` (the fictitious instance), so it is not
the case that every listed entry point fails by returning false before the
reader is attached. -/
theorem c5_counterexample_lookup_unattached :
    stC5.mp_reader = false ∧ stC5.mp_mutex = false ∧
    lookup_instance stC5 0 false = (true, 1, some []) := by decide

/-- C5 (amended): the guarded entry points — `received_change`, both forms
of `remove_change_sub`, `set_next_deadline` and `get_next_deadline` — fail
by returning false with no state change when invoked before the reader and
mutex are attached; `lookup_instance` performs no attachment check (and can
return true), and `get_first_untaken_info` performs no check either (it
dereferences the unattached mutex and reader). -/
theorem c5_amended_unattached_guards (st : HistoryState) (c : CacheChange)
    (u handle t it : Nat) (hun : st.mp_reader = false ∨ st.mp_mutex = false) :
    received_change st c u = some (false, st, c) ∧
    remove_change_sub st c = (false, st) ∧
    remove_change_sub_it st c it = (false, st, it) ∧
    set_next_deadline st handle t = (false, st) ∧
    get_next_deadline st = DeadlineResult.fail := by
  refine ⟨?_, ?_, ?_, ?_, ?_⟩ <;>
    simp only [received_change, remove_change_sub, remove_change_sub_it, set_next_deadline,
      get_next_deadline, if_pos hun]

/-- C5 witness: the guards at a concrete unattached history. -/
theorem c5_witness :
    (stC5.mp_reader = false ∨ stC5.mp_mutex = false) ∧
    (received_change stC5 (sampleN 1) 0 = some (false, stC5, sampleN 1) ∧
     remove_change_sub stC5 (sampleN 1) = (false, stC5) ∧
     remove_change_sub_it stC5 (sampleN 1) 0 = (false, stC5, 0) ∧
     set_next_deadline stC5 0 7 = (false, stC5) ∧
     get_next_deadline stC5 = DeadlineResult.fail) :=
  ⟨Or.inl rfl, c5_amended_unattached_guards stC5 (sampleN 1) 0 0 7 0 (Or.inl rfl)⟩

/-! Claim C8. -/

/-- C8: on a keyed attached history with a non-empty table,
`get_next_deadline` returns a (handle, timestamp) pair taken from an entry
of the instance table whose `next_deadline` is minimal over all entries;
in the scenario that sets deadlines 1 to 100, 2 to 50, 3 to 75 it returns
`(2, 50)`. -/
theorem c8_get_next_deadline_min (st : HistoryState)
    (hk : st.has_keys = true) (hr : st.mp_reader = true) (hm : st.mp_mutex = true)
    (hne : st.keyed_changes ≠ []) :
    (∃ p, p ∈ st.keyed_changes ∧
      get_next_deadline st = DeadlineResult.okKey p.1 p.2.next_deadline_us ∧
      ∀ e ∈ st.keyed_changes, p.2.next_deadline_us ≤ e.2.next_deadline_us) ∧
    get_next_deadline stC8d = DeadlineResult.okKey 2 50 := by
  constructor
  · cases h : st.keyed_changes with
    | nil => exact absurd h hne
    | cons e rest =>
      refine ⟨rest.foldl
        (fun acc y => if y.2.next_deadline_us < acc.2.next_deadline_us then y else acc) e,
        ?_, ?_, ?_⟩
      · exact foldlMin_mem rest e
      · simp [get_next_deadline, hk, hr, hm, h]
      · exact foldlMin_le rest e
  · decide

/-- C8 witness: the minimality statement at the concrete deadline state. -/
theorem c8_witness :
    (stC8d.has_keys = true ∧ stC8d.mp_reader = true ∧ stC8d.mp_mutex = true ∧
      stC8d.keyed_changes ≠ []) ∧
    (∃ p, p ∈ stC8d.keyed_changes ∧
      get_next_deadline stC8d = DeadlineResult.okKey p.1 p.2.next_deadline_us ∧
      ∀ e ∈ stC8d.keyed_changes, p.2.next_deadline_us ≤ e.2.next_deadline_us) :=
  ⟨⟨rfl, rfl, rfl, by decide⟩,
    (c8_get_next_deadline_min stC8d rfl rfl rfl (by decide)).1⟩

/-! Claim C2: counterexample. -/

/-- C2 counterexample: on the keyed KEEP_ALL history `stC2` (store at
capacity, `is_full` set), delivering `chB3` for the fresh instance 2 is
rejected (`received_change` returns false) yet a new empty entry for
instance 2 has been inserted into the instance table (its size grows from
1 to 2), so an admission failure does not leave the whole history state
unchanged. -/
theorem c2_counterexample_failed_admission_mutates_table :
    (received_change stC2 chB3 0).map (fun r => (r.1, r.2.1.keyed_changes.length)) =
      some (false, 2) ∧
    stC2.keyed_changes.length = 1 := by decide

/-! Claim C9: counterexample. -/

/-- C9 counterexample: on the keyed history `stC9`, removing `cha1` (stored
at `change_store` index 1) with caller iterator 0 succeeds, but the
returned iterator is 0 — the erase position inside instance 2's
`cache_changes` — and not 1, the next valid position of `change_store`
after the removed element. -/
theorem c9_counterexample_keyed_iterator_not_store_position :
    (remove_change_sub_it stC9 cha1 0).1 = true ∧
    find_change_nts stC9 cha1 = some 1 ∧
    (remove_change_sub_it stC9 cha1 0).2.2 = 0 := by decide

/-! Failure-path lemmas: which states the operations return on failure. -/

theorem add_received_change_false {st : HistoryState} {c : CacheChange} {st' : HistoryState}
    (h : add_received_change st c = (false, st')) :
    st' = st ∧ st.m_isHistoryFull = true := by
  unfold add_received_change add_change at h
  split at h
  next hfull =>
    simp only [Prod.mk.injEq] at h
    exact ⟨h.2.symm, hfull⟩
  next hfull =>
    split at h <;> (try split at h) <;> simp_all

theorem add_received_change_with_key_false {st : HistoryState} {c : CacheChange} {k : Nat}
    {st' : HistoryState} (h : add_received_change_with_key st c k = (false, st')) :
    st' = st ∧ st.m_isHistoryFull = true := by
  unfold add_received_change_with_key add_change at h
  split at h
  next hfull =>
    simp only [Prod.mk.injEq] at h
    exact ⟨h.2.symm, hfull⟩
  next hfull =>
    split at h <;> (try split at h) <;> simp_all

theorem remove_change_false {st : HistoryState} {c : CacheChange} {st' : HistoryState}
    (h : remove_change st c = (false, st')) : st' = st := by
  unfold remove_change at h
  split at h
  · simp only [Prod.mk.injEq] at h
    exact h.2.symm
  · simp at h

theorem remove_change_true {st : HistoryState} {c : CacheChange} {st' : HistoryState}
    (h : remove_change st c = (true, st')) :
    ∃ i, find_change_nts st c = some i ∧ st' = (remove_change_nts st i).1 := by
  unfold remove_change at h
  split at h
  · simp at h
  next i hi =>
    simp only [Prod.mk.injEq] at h
    exact ⟨i, hi, h.2.symm⟩

theorem remove_change_sub_false_fields {st : HistoryState} {c : CacheChange}
    {st' : HistoryState} (h : remove_change_sub st c = (false, st')) :
    st'.m_changes = st.m_changes ∧ st'.m_isHistoryFull = st.m_isHistoryFull ∧
    st'.next_deadline_us = st.next_deadline_us := by
  unfold remove_change_sub at h
  split at h
  · simp only [Prod.mk.injEq] at h
    rw [← h.2]
    exact ⟨rfl, rfl, rfl⟩
  · split at h
    · simp at h
    next st2 hrc =>
      simp only [Prod.mk.injEq] at h
      have h2 : st2 = { st with keyed_changes := keyedScrub st c } := remove_change_false hrc
      rw [← h.2, h2]
      exact ⟨rfl, rfl, rfl⟩

theorem remove_change_sub_true_full {st : HistoryState} {c : CacheChange}
    {st' : HistoryState} (h : remove_change_sub st c = (true, st')) :
    st'.m_isHistoryFull = false := by
  unfold remove_change_sub at h
  split at h
  · simp at h
  · split at h
    · simp only [Prod.mk.injEq] at h
      rw [← h.2]
    · simp at h

theorem rc_keep_all_no_key_false {st : HistoryState} {c : CacheChange} {u : Nat}
    {st' : HistoryState} (h : received_change_keep_all_no_key st c u = (false, st')) :
    st' = st := by
  unfold received_change_keep_all_no_key at h
  split at h
  · exact (add_received_change_false h).1
  · simp only [Prod.mk.injEq] at h
    exact h.2.symm

theorem rc_keep_last_no_key_false {st : HistoryState} {c : CacheChange} {st' : HistoryState}
    (h : received_change_keep_last_no_key st c = some (false, st')) :
    st'.m_changes = st.m_changes ∧ st'.m_isHistoryFull = st.m_isHistoryFull ∧
    st'.next_deadline_us = st.next_deadline_us := by
  unfold received_change_keep_last_no_key at h
  split at h
  · simp only [Option.some.injEq] at h
    rw [(add_received_change_false h).1]
    exact ⟨rfl, rfl, rfl⟩
  · split at h
    · simp at h
    · split at h
      next st1 hrcs =>
        simp only [Option.some.injEq] at h
        have hfull := remove_change_sub_true_full hrcs
        have := (add_received_change_false h).2
        rw [hfull] at this
        simp at this
      next st1 hrcs =>
        simp only [Option.some.injEq, Prod.mk.injEq] at h
        rw [← h.2]
        exact remove_change_sub_false_fields hrcs

theorem rc_keep_all_with_key_false {st : HistoryState} {c : CacheChange}
    {st' : HistoryState} {c' : CacheChange}
    (h : received_change_keep_all_with_key st c = (false, st', c')) :
    st'.m_changes = st.m_changes ∧ st'.m_isHistoryFull = st.m_isHistoryFull ∧
    st'.next_deadline_us = st.next_deadline_us := by
  unfold received_change_keep_all_with_key at h
  split at h
  next k table c1 hf =>
    split at h
    · split at h
      next b st2 hadd =>
        simp only [Prod.mk.injEq] at h
        rw [h.1] at hadd
        have := (add_received_change_with_key_false hadd).1
        rw [← h.2.1, this]
        exact ⟨rfl, rfl, rfl⟩
    · simp only [Prod.mk.injEq] at h
      rw [← h.2.1]
      exact ⟨rfl, rfl, rfl⟩
  next table c1 hf =>
    simp only [Prod.mk.injEq] at h
    rw [← h.2.1]
    exact ⟨rfl, rfl, rfl⟩

theorem rc_keep_last_with_key_false {st : HistoryState} {c : CacheChange}
    {st' : HistoryState} {c' : CacheChange}
    (h : received_change_keep_last_with_key st c = some (false, st', c')) :
    st'.m_changes = st.m_changes ∧ st'.m_isHistoryFull = st.m_isHistoryFull ∧
    st'.next_deadline_us = st.next_deadline_us := by
  unfold received_change_keep_last_with_key at h
  split at h
  next k table c1 hf =>
    split at h
    · split at h
      next b st2 hadd =>
        simp only [Option.some.injEq, Prod.mk.injEq] at h
        rw [h.1] at hadd
        have := (add_received_change_with_key_false hadd).1
        rw [← h.2.1, this]
        exact ⟨rfl, rfl, rfl⟩
    · split at h
      · simp at h
      · split at h
        next st2 hrcs =>
          split at h
          next b st3 hadd =>
            simp only [Option.some.injEq, Prod.mk.injEq] at h
            rw [h.1] at hadd
            have hfull := remove_change_sub_true_full hrcs
            have := (add_received_change_with_key_false hadd).2
            rw [hfull] at this
            simp at this
        next st2 hrcs =>
          simp only [Option.some.injEq, Prod.mk.injEq] at h
          rw [← h.2.1]
          have hfields := remove_change_sub_false_fields hrcs
          exact hfields
  next table c1 hf =>
    simp only [Option.some.injEq, Prod.mk.injEq] at h
    rw [← h.2.1]
    exact ⟨rfl, rfl, rfl⟩

/-! Claim C2: amended statement. -/

/-- C2 (amended): whenever `received_change` returns false, the change store
(`change_store` / `m_changes`), the cached `is_full` flag and the global
deadline are exactly as before the call; the instance table and the
sample's `instance_handle` field, however, may have changed (a fresh empty
entry inserted or an empty entry reclaimed by `find_key`, and the handle
set by key extraction), and an eviction-then-admission sequence changes the
store only if eviction succeeded. -/
theorem c2_amended_failed_admission (st : HistoryState) (c : CacheChange) (u : Nat)
    (st' : HistoryState) (c' : CacheChange)
    (h : received_change st c u = some (false, st', c')) :
    st'.m_changes = st.m_changes ∧ st'.m_isHistoryFull = st.m_isHistoryFull ∧
    st'.next_deadline_us = st.next_deadline_us := by
  unfold received_change at h
  split at h
  · simp only [Option.some.injEq, Prod.mk.injEq] at h
    rw [← h.2.1]
    exact ⟨rfl, rfl, rfl⟩
  · split at h
    · -- unkeyed KEEP_ALL
      split at h
      next b st1 hr =>
        simp only [Option.some.injEq, Prod.mk.injEq] at h
        rw [h.1] at hr
        rw [← h.2.1, rc_keep_all_no_key_false hr]
        exact ⟨rfl, rfl, rfl⟩
    · -- unkeyed KEEP_LAST
      cases hr : received_change_keep_last_no_key st c with
      | none => rw [hr] at h; simp at h
      | some r =>
        rw [hr] at h
        simp only [Option.map_some', Option.some.injEq, Prod.mk.injEq] at h
        cases r with
        | mk b st1 =>
          simp only at h
          rw [h.1] at hr
          rw [← h.2.1]
          exact rc_keep_last_no_key_false hr
    · -- keyed KEEP_ALL
      simp only [Option.some.injEq] at h
      exact rc_keep_all_with_key_false h
    · -- keyed KEEP_LAST
      exact rc_keep_last_with_key_false h

/-- The state `received_change stC2 chB3 0` actually produces: the store and
flags of `stC2`, with a fresh empty entry for instance 2. -/
def stC2x : HistoryState :=
  { stC2 with keyed_changes :=
      [(1, { cache_changes := [chA1, chA2], next_deadline_us := 0 }), (2, {})] }

/-- C2 witness: the amended statement at the concrete rejected delivery. -/
theorem c2_witness :
    received_change stC2 chB3 0 = some (false, stC2x, chB3) ∧
    (stC2x.m_changes = stC2.m_changes ∧ stC2x.m_isHistoryFull = stC2.m_isHistoryFull ∧
     stC2x.next_deadline_us = stC2.next_deadline_us) :=
  ⟨by decide, c2_amended_failed_admission stC2 chB3 0 stC2x chB3 (by decide)⟩

/-! Characterization lemmas for the success paths. -/

theorem add_received_change_eq (st : HistoryState) (c : CacheChange)
    (hf : st.m_isHistoryFull = false) :
    add_received_change st c =
      (true, { st with
          m_changes := st.m_changes ++ [c],
          m_isHistoryFull := (decide (st.m_changes.length + 1 = st.maximumReservedCaches)) }) := by
  simp only [add_received_change, add_change, hf, Bool.false_eq_true, if_false]
  have hlen : (st.m_changes ++ [c]).length = st.m_changes.length + 1 := by simp
  rw [hlen]
  by_cases hc : st.m_changes.length + 1 = st.maximumReservedCaches
  · rw [if_pos hc]
    simp [hc]
  · rw [if_neg hc]
    simp [hc]

theorem add_received_change_with_key_eq (st : HistoryState) (c : CacheChange) (k : Nat)
    (hf : st.m_isHistoryFull = false) :
    add_received_change_with_key st c k =
      (true, { st with
          m_changes := st.m_changes ++ [c],
          m_isHistoryFull := (decide (st.m_changes.length + 1 = st.maximumReservedCaches)),
          keyed_changes :=
            (mapSet k (fun e => { e with cache_changes := e.cache_changes ++ [c] })
              st.keyed_changes) }) := by
  simp only [add_received_change_with_key, add_change, pushInstance, hf, Bool.false_eq_true,
    if_false]
  have hlen : (st.m_changes ++ [c]).length = st.m_changes.length + 1 := by simp
  rw [hlen]
  by_cases hc : st.m_changes.length + 1 = st.maximumReservedCaches
  · rw [if_pos hc]
    simp [hc]
  · rw [if_neg hc]
    simp [hc]

theorem remove_change_nts_eq (st : HistoryState) (i : Nat) (p : CacheChange)
    (hg : st.m_changes.get? i = some p) :
    remove_change_nts st i =
      ({ st with
          keyed_changes :=
            (if p.instanceHandle ≠ 0 ∧ st.has_keys = true then
              mapSet p.instanceHandle
                (fun e => { e with cache_changes :=
                    (e.cache_changes.filter (fun x => x.ptr != p.ptr)) })
                st.keyed_changes
            else st.keyed_changes),
          m_changes := st.m_changes.eraseIdx i,
          m_isHistoryFull := false }, i) := by
  unfold remove_change_nts
  rw [hg]

theorem remove_change_nts_out_of_range (st : HistoryState) (i : Nat)
    (hge : st.m_changes.length ≤ i) :
    remove_change_nts st i = (st, st.m_changes.length) := by
  unfold remove_change_nts
  rw [List.get?_eq_none.mpr hge]

/-! Invariant preservation lemmas. -/

theorem hinv_add_received_change {st : HistoryState} (c : CacheChange)
    (hinv : historyInvariant st) : historyInvariant (add_received_change st c).2 := by
  obtain ⟨hle, hfull⟩ := hinv
  by_cases hf : st.m_isHistoryFull = true
  · simp only [add_received_change, hf, if_pos]
    exact ⟨hle, hfull⟩
  · rw [Bool.not_eq_true] at hf
    have hne : st.m_changes.length ≠ st.maximumReservedCaches := by
      rw [hf] at hfull
      intro hc
      simp [hc] at hfull
    rw [add_received_change_eq st c hf]
    refine ⟨?_, ?_⟩
    · simp only [List.length_append, List.length_cons, List.length_nil]
      omega
    · simp

theorem hinv_add_received_change_with_key {st : HistoryState} (c : CacheChange) (k : Nat)
    (hinv : historyInvariant st) : historyInvariant (add_received_change_with_key st c k).2 := by
  obtain ⟨hle, hfull⟩ := hinv
  by_cases hf : st.m_isHistoryFull = true
  · simp only [add_received_change_with_key, hf, if_pos]
    exact ⟨hle, hfull⟩
  · rw [Bool.not_eq_true] at hf
    have hne : st.m_changes.length ≠ st.maximumReservedCaches := by
      rw [hf] at hfull
      intro hc
      simp [hc] at hfull
    rw [add_received_change_with_key_eq st c k hf]
    refine ⟨?_, ?_⟩
    · simp only [List.length_append, List.length_cons, List.length_nil]
      omega
    · simp

theorem remove_change_nts_full_lt {st : HistoryState} {i : Nat}
    (hlt : i < st.m_changes.length) :
    (remove_change_nts st i).1.m_isHistoryFull = false := by
  rw [remove_change_nts_eq st i (st.m_changes.get ⟨i, hlt⟩) (List.get?_eq_get hlt)]

theorem hinv_remove_change_nts_lt {st : HistoryState} {i : Nat}
    (hle : st.m_changes.length ≤ st.maximumReservedCaches)
    (hlt : i < st.m_changes.length) :
    historyInvariant (remove_change_nts st i).1 := by
  rw [remove_change_nts_eq st i (st.m_changes.get ⟨i, hlt⟩) (List.get?_eq_get hlt)]
  have hlen : (st.m_changes.eraseIdx i).length + 1 = st.m_changes.length :=
    List.length_eraseIdx_add_one hlt
  refine ⟨?_, ?_⟩
  · simp only []
    omega
  · symm
    simp only [decide_eq_false_iff_not]
    omega

theorem hinv_remove_change {st : HistoryState} (c : CacheChange)
    (hinv : historyInvariant st) : historyInvariant (remove_change st c).2 := by
  unfold remove_change
  split
  · exact hinv
  next i hi =>
    unfold find_change_nts at hi
    exact hinv_remove_change_nts_lt hinv.1 (findFirstIdx_lt_length hi)

theorem hinv_remove_change_sub {st : HistoryState} (c : CacheChange)
    (hinv : historyInvariant st) : historyInvariant (remove_change_sub st c).2 := by
  unfold remove_change_sub
  split
  · exact hinv
  · split
    next st2 hrc =>
      obtain ⟨i, hi, hst2⟩ := remove_change_true hrc
      unfold find_change_nts at hi
      have hlt : i < st.m_changes.length := findFirstIdx_lt_length hi
      have hinv2 : historyInvariant st2 := by
        rw [hst2]
        exact hinv_remove_change_nts_lt hinv.1 hlt
      have hfull2 : st2.m_isHistoryFull = false := by
        rw [hst2]
        exact remove_change_nts_full_lt hlt
      refine ⟨hinv2.1, ?_⟩
      rw [← hfull2]
      exact hinv2.2
    next st2 hrc =>
      have h2 : st2 = { st with keyed_changes := keyedScrub st c } := remove_change_false hrc
      rw [h2]
      exact hinv

theorem hinv_remove_change_sub_of_eq {st : HistoryState} {c : CacheChange} {b : Bool}
    {st' : HistoryState} (hinv : historyInvariant st)
    (h : remove_change_sub st c = (b, st')) : historyInvariant st' := by
  have h2 := hinv_remove_change_sub c hinv
  rw [h] at h2
  exact h2

theorem hinv_add_received_change_of_eq {st : HistoryState} {c : CacheChange} {b : Bool}
    {st' : HistoryState} (hinv : historyInvariant st)
    (h : add_received_change st c = (b, st')) : historyInvariant st' := by
  have h2 := hinv_add_received_change c hinv
  rw [h] at h2
  exact h2

theorem hinv_add_received_change_with_key_of_eq {st : HistoryState} {c : CacheChange}
    {k : Nat} {b : Bool} {st' : HistoryState} (hinv : historyInvariant st)
    (h : add_received_change_with_key st c k = (b, st')) : historyInvariant st' := by
  have h2 := hinv_add_received_change_with_key c k hinv
  rw [h] at h2
  exact h2

theorem hinv_remove_change_sub_it {st : HistoryState} (c : CacheChange) (it : Nat)
    (hinv : historyInvariant st) : historyInvariant (remove_change_sub_it st c it).2.1 := by
  unfold remove_change_sub_it
  split
  · exact hinv
  · split
    next table1 it1 hks =>
      split
      · exact hinv
      next i hi =>
        split
        next st3 ret heq =>
          unfold find_change_nts at hi
          have hlt : i < st.m_changes.length := findFirstIdx_lt_length hi
          have hst3 : st3 =
              (remove_change_nts
                { st with keyed_changes := table1, m_isHistoryFull := false } i).1 := by
            rw [heq]
          have hinv3 : historyInvariant st3 := by
            rw [hst3]
            exact hinv_remove_change_nts_lt hinv.1 hlt
          split <;> exact hinv3

theorem hinv_rc_keep_all_no_key {st : HistoryState} (c : CacheChange) (u : Nat)
    (hinv : historyInvariant st) :
    historyInvariant (received_change_keep_all_no_key st c u).2 := by
  unfold received_change_keep_all_no_key
  split
  · exact hinv_add_received_change c hinv
  · exact hinv

theorem hinv_rc_keep_last_no_key {st : HistoryState} (c : CacheChange)
    (hinv : historyInvariant st) :
    ∀ b st1, received_change_keep_last_no_key st c = some (b, st1) →
      historyInvariant st1 := by
  intro b st1 h
  unfold received_change_keep_last_no_key at h
  split at h
  · simp only [Option.some.injEq] at h
    have h2 := hinv_add_received_change c hinv
    rw [h] at h2
    exact h2
  · split at h
    · simp at h
    · split at h
      next st2 hrcs =>
        simp only [Option.some.injEq] at h
        exact hinv_add_received_change_of_eq (hinv_remove_change_sub_of_eq hinv hrcs) h
      next st2 hrcs =>
        simp only [Option.some.injEq, Prod.mk.injEq] at h
        rw [← h.2]
        exact hinv_remove_change_sub_of_eq hinv hrcs

theorem hinv_rc_keep_all_with_key {st : HistoryState} (c : CacheChange)
    (hinv : historyInvariant st) :
    historyInvariant (received_change_keep_all_with_key st c).2.1 := by
  unfold received_change_keep_all_with_key
  split
  next k table c1 hf =>
    split
    · split
      next b st2 hadd =>
        have hinvb : historyInvariant { st with keyed_changes := table } := hinv
        exact hinv_add_received_change_with_key_of_eq hinvb hadd
    · exact hinv
  next table c1 hf =>
    exact hinv

theorem hinv_rc_keep_last_with_key {st : HistoryState} (c : CacheChange)
    (hinv : historyInvariant st) :
    ∀ b st1 c1, received_change_keep_last_with_key st c = some (b, st1, c1) →
      historyInvariant st1 := by
  intro b st1 c1 h
  unfold received_change_keep_last_with_key at h
  split at h
  next k table c2 hf =>
    have hinvb : historyInvariant { st with keyed_changes := table } := hinv
    split at h
    · split at h
      next b2 st2 hadd =>
        simp only [Option.some.injEq, Prod.mk.injEq] at h
        rw [← h.2.1]
        exact hinv_add_received_change_with_key_of_eq hinvb hadd
    · split at h
      · simp at h
      · split at h
        next st2 hrcs =>
          split at h
          next b2 st3 hadd =>
            simp only [Option.some.injEq, Prod.mk.injEq] at h
            rw [← h.2.1]
            exact hinv_add_received_change_with_key_of_eq
              (hinv_remove_change_sub_of_eq hinvb hrcs) hadd
        next st2 hrcs =>
          simp only [Option.some.injEq, Prod.mk.injEq] at h
          rw [← h.2.1]
          exact hinv_remove_change_sub_of_eq hinvb hrcs
  next table c2 hf =>
    simp only [Option.some.injEq, Prod.mk.injEq] at h
    rw [← h.2.1]
    exact hinv

/-! Claim C3. -/

/-- C3: the spec invariant I4 holds after every public operation returns:
starting from any state satisfying it, `received_change` (any strategy),
both forms of `remove_change_sub`, and `remove_change_nts` (expiry/cleanup)
leave the store within `m_att.maximumReservedCaches` (the spec's
`max_total_samples`) with `m_isHistoryFull` equivalent to "store size
equals that capacity". -/
theorem c3_is_full_caches_capacity (st : HistoryState) (hinv : historyInvariant st) :
    (∀ c u r, received_change st c u = some r → historyInvariant r.2.1) ∧
    (∀ c, historyInvariant (remove_change_sub st c).2) ∧
    (∀ c it, historyInvariant (remove_change_sub_it st c it).2.1) ∧
    (∀ i, historyInvariant (remove_change_nts st i).1) := by
  refine ⟨?_, fun c => hinv_remove_change_sub c hinv,
    fun c it => hinv_remove_change_sub_it c it hinv, ?_⟩
  · intro c u r hr
    unfold received_change at hr
    split at hr
    · simp only [Option.some.injEq] at hr
      rw [← hr]
      exact hinv
    · split at hr
      · split at hr
        next b st1 hb =>
          simp only [Option.some.injEq] at hr
          rw [← hr]
          have h2 := hinv_rc_keep_all_no_key c u hinv
          rw [hb] at h2
          exact h2
      · cases hq : received_change_keep_last_no_key st c with
        | none => rw [hq] at hr; simp at hr
        | some q =>
          rw [hq] at hr
          simp only [Option.map_some', Option.some.injEq] at hr
          rw [← hr]
          exact hinv_rc_keep_last_no_key c hinv q.1 q.2 hq
      · simp only [Option.some.injEq] at hr
        rw [← hr]
        exact hinv_rc_keep_all_with_key c hinv
      · exact hinv_rc_keep_last_with_key c hinv r.1 r.2.1 r.2.2 hr
  · intro i
    by_cases hlt : i < st.m_changes.length
    · exact hinv_remove_change_nts_lt hinv.1 hlt
    · rw [remove_change_nts_out_of_range st i (Nat.le_of_not_lt hlt)]
      exact hinv

/-- C3 witness: the invariant at a concrete state and operation. -/
theorem c3_witness :
    historyInvariant stC9 ∧ historyInvariant (remove_change_sub stC9 cha1).2 :=
  ⟨by decide, (c3_is_full_caches_capacity stC9 (by decide)).2.1 cha1⟩

/-! Claim C9: amended statement. -/

/-- C9 (amended): when `remove_change_sub(change, &iter)` returns true, on an
unkeyed history the caller's iterator is advanced to the next valid
position of `change_store` — the index at which the change was removed;
on a keyed history (with the change's instance present in the table) the
iterator is instead set to the erase position within the owning instance's
`cache_changes` when the scan finds the change there, and is left
unchanged otherwise. -/
theorem c9_amended_iterator_positions :
    (∀ (st : HistoryState) (c : CacheChange) (it : Nat) (st' : HistoryState) (it' : Nat),
      st.has_keys = false →
      remove_change_sub_it st c it = (true, st', it') →
      ∃ i, find_change_nts st c = some i ∧ it' = i ∧
        st'.m_changes = st.m_changes.eraseIdx i) ∧
    (∀ (st : HistoryState) (c : CacheChange) (it : Nat) (st' : HistoryState) (it' : Nat),
      st.has_keys = true →
      find_key st c.instanceHandle = (true, st.keyed_changes) →
      remove_change_sub_it st c it = (true, st', it') →
      ((∃ p, findFirstIdx (matchesSeqGuid c)
          (instanceChanges st.keyed_changes c.instanceHandle) = some p ∧ it' = p) ∨
       (findFirstIdx (matchesSeqGuid c)
          (instanceChanges st.keyed_changes c.instanceHandle) = none ∧ it' = it))) := by
  constructor
  · intro st c it st' it' hk h
    unfold remove_change_sub_it at h
    split at h
    · simp at h
    · split at h
      next table1 it1 hks =>
        have hscrub : keyedScrubIt st c it = (st.keyed_changes, it) := by
          unfold keyedScrubIt
          rw [hk]
          simp
        rw [hscrub] at hks
        injection hks with htab hit
        subst htab
        subst hit
        split at h
        · simp at h
        next i hi =>
          split at h
          next st3 ret heq2 =>
            rw [hk] at h
            simp only [Bool.false_eq_true, if_false, Prod.mk.injEq] at h
            have hi' : find_change_nts st c = some i := hi
            have hlt : i < st.m_changes.length := by
              unfold find_change_nts at hi'
              exact findFirstIdx_lt_length hi'
            have hx := remove_change_nts_eq
              { st with keyed_changes := st.keyed_changes, m_isHistoryFull := false } i
              (st.m_changes.get ⟨i, hlt⟩) (List.get?_eq_get hlt)
            rw [hx] at heq2
            injection heq2 with h31 h32
            refine ⟨i, hi', ?_, ?_⟩
            · rw [← h.2.2, ← h32]
            · rw [← h.2.1, ← h31]
  · intro st c it st' it' hk hfind h
    unfold remove_change_sub_it at h
    split at h
    · simp at h
    · split at h
      next table1 it1 hks =>
        cases hscan : findFirstIdx (matchesSeqGuid c)
            (instanceChanges st.keyed_changes c.instanceHandle) with
        | some p =>
          have hscrub : keyedScrubIt st c it =
              (mapSet c.instanceHandle
                (fun e => { e with cache_changes := e.cache_changes.eraseIdx p })
                st.keyed_changes, p) := by
            simp [keyedScrubIt, hk, hfind, hscan]
          rw [hscrub] at hks
          injection hks with htab hit
          subst htab
          subst hit
          split at h
          · simp at h
          next i hi =>
            split at h
            next st3 ret heq2 =>
              simp only [hk, if_true, Prod.mk.injEq] at h
              exact Or.inl ⟨p, rfl, h.2.2.symm⟩
        | none =>
          have hscrub : keyedScrubIt st c it = (st.keyed_changes, it) := by
            simp [keyedScrubIt, hk, hfind, hscan]
          rw [hscrub] at hks
          injection hks with htab hit
          subst htab
          subst hit
          split at h
          · simp at h
          next i hi =>
            split at h
            next st3 ret heq2 =>
              simp only [hk, if_true, Prod.mk.injEq] at h
              exact Or.inr ⟨rfl, h.2.2.symm⟩

/-- The unkeyed variant of `stC9` (same store, no instance table). -/
def stC9u : HistoryState :=
  { stC9 with has_keys := false, keyed_changes := [] }

/-- C9 witness: the amended statement on a concrete unkeyed removal. -/
theorem c9_witness :
    stC9u.has_keys = false ∧
    remove_change_sub_it stC9u cha1 0 =
      (true, { stC9u with m_changes := [chb1, cha2], m_isHistoryFull := false }, 1) ∧
    (∃ i, find_change_nts stC9u cha1 = some i ∧ 1 = i ∧
      ({ stC9u with m_changes := [chb1, cha2], m_isHistoryFull := false }
        : HistoryState).m_changes = stC9u.m_changes.eraseIdx i) :=
  ⟨rfl, by decide,
    c9_amended_iterator_positions.1 stC9u cha1 0
      { stC9u with m_changes := [chb1, cha2], m_isHistoryFull := false } 1 rfl (by decide)⟩

/-! Claim C1. -/

/-- C1 counterexample: delivering `s1..s5` on the attached KEEP_LAST
depth-3 unkeyed history leaves `change_store = [s3, s4, s5]` as the claim
says, but `is_full` is `true` (the store sits exactly at the derived
capacity `maximumReservedCaches = depth = 3`), not `false`. -/
theorem c1_counterexample_scenario_is_full :
    (deliverFlags stC1 [sampleN 1, sampleN 2, sampleN 3, sampleN 4, sampleN 5]).map
      (fun q => (q.2.m_changes, q.2.m_isHistoryFull)) =
      some ([sampleN 3, sampleN 4, sampleN 5], true) ∧
    stC1.maximumReservedCaches = 3 := by decide

/-- C1 (amended): for an unkeyed attached KEEP_LAST history satisfying I4
with capacity equal to `depth`, `received_change` appends the sample when
`change_store.size() < depth`, and otherwise evicts the front element via
`remove_change_sub` and then appends; delivering `s1..s5` in order with
depth 3 leaves `change_store = [s3, s4, s5]`, every delivery accepted, and
`is_full` true (capacity = depth is reached). -/
theorem c1_amended_keep_last_no_key (st : HistoryState) (c : CacheChange)
    (hk : st.has_keys = false) (hkind : st.kind = HistoryKind.KEEP_LAST)
    (hr : st.mp_reader = true) (hm : st.mp_mutex = true)
    (hcap : st.maximumReservedCaches = st.depth) (hinv : historyInvariant st) :
    (st.m_changes.length < st.depth →
      (received_change st c 0).map (fun r => (r.1, r.2.1.m_changes)) =
        some (true, st.m_changes ++ [c])) ∧
    (∀ front rest, st.m_changes = front :: rest → ¬ st.m_changes.length < st.depth →
      (received_change st c 0).map (fun r => (r.1, r.2.1.m_changes)) =
        some (true, rest ++ [c])) ∧
    (deliverFlags stC1 [sampleN 1, sampleN 2, sampleN 3, sampleN 4, sampleN 5]).map
      (fun q => (q.1, q.2.m_changes, q.2.m_isHistoryFull)) =
      some ([true, true, true, true, true],
        [sampleN 3, sampleN 4, sampleN 5], true) := by
  have hg : ¬(st.mp_reader = false ∨ st.mp_mutex = false) := by simp [hr, hm]
  refine ⟨?_, ?_, by decide⟩
  · intro hlen
    have hnf : st.m_isHistoryFull = false := by
      rcases hinv with ⟨hle, hfull⟩
      rw [hfull]
      simp only [decide_eq_false_iff_not]
      omega
    unfold received_change
    rw [if_neg hg]
    simp only [hk, hkind]
    simp only [received_change_keep_last_no_key, if_pos hlen,
      add_received_change_eq st c hnf, Option.map_some']
  · intro front rest hmc hge
    have hfc : find_change_nts st front = some 0 := by
      unfold find_change_nts
      rw [hmc]
      simp [findFirstIdx, matchesSeqGuid]
    have hget : st.m_changes.get? 0 = some front := by
      rw [hmc]
      rfl
    have hrs : remove_change_sub st front =
        (true, { st with m_changes := rest, m_isHistoryFull := false }) := by
      have hscrub : keyedScrub st front = st.keyed_changes := by
        unfold keyedScrub
        rw [hk]
        simp
      have hS : ({ st with keyed_changes := keyedScrub st front } : HistoryState) = st := by
        rw [hscrub]
      have hrc : remove_change st front = (true, (remove_change_nts st 0).1) := by
        unfold remove_change
        rw [hfc]
      rw [remove_change_nts_eq st 0 front hget] at hrc
      unfold remove_change_sub
      rw [if_neg hg, hS, hrc]
      simp [hk, hmc]
    unfold received_change
    rw [if_neg hg]
    simp only [hk, hkind]
    simp only [received_change_keep_last_no_key, if_neg hge]
    rw [hmc]
    simp only [hrs]
    rw [add_received_change_eq _ c rfl]
    simp only [Option.map_some']

/-- C1 witness: the below-depth part of the amended statement at the
concrete empty depth-3 history. -/
theorem c1_witness :
    (stC1.has_keys = false ∧ stC1.kind = HistoryKind.KEEP_LAST ∧ stC1.mp_reader = true ∧
     stC1.mp_mutex = true ∧ stC1.maximumReservedCaches = stC1.depth ∧
     historyInvariant stC1 ∧ stC1.m_changes.length < stC1.depth) ∧
    (received_change stC1 (sampleN 1) 0).map (fun r => (r.1, r.2.1.m_changes)) =
      some (true, stC1.m_changes ++ [sampleN 1]) :=
  ⟨⟨rfl, rfl, rfl, rfl, by decide, by decide, by decide⟩,
   (c1_amended_keep_last_no_key stC1 (sampleN 1) rfl rfl rfl rfl (by decide)
      (by decide)).1 (by decide)⟩

/-! Claim C6. -/

/-- C6: for an unkeyed attached KEEP_ALL history satisfying I4 with capacity
equal to `max_samples`, `received_change(c, u)` accepts iff
`change_store.size() + u < max_samples`, appending on acceptance and
leaving the state untouched (no eviction) on rejection; with
`max_samples = 2`, delivering `s1, s2, s3` accepts `s1, s2`, rejects `s3`,
and leaves the store `[s1, s2]` with `is_full` true. -/
theorem c6_keep_all_no_key (st : HistoryState) (c : CacheChange) (u : Nat)
    (hk : st.has_keys = false) (hkind : st.kind = HistoryKind.KEEP_ALL)
    (hr : st.mp_reader = true) (hm : st.mp_mutex = true)
    (hcap : st.maximumReservedCaches = st.max_samples) (hinv : historyInvariant st) :
    ((∃ st', received_change st c u = some (true, st', c)) ↔
      st.m_changes.length + u < st.max_samples) ∧
    (st.m_changes.length + u < st.max_samples →
      (received_change st c u).map (fun r => (r.1, r.2.1.m_changes)) =
        some (true, st.m_changes ++ [c])) ∧
    (¬ st.m_changes.length + u < st.max_samples →
      received_change st c u = some (false, st, c)) ∧
    (deliverFlags stC6 [sampleN 1, sampleN 2, sampleN 3]).map
      (fun q => (q.1, q.2.m_changes, q.2.m_isHistoryFull)) =
      some ([true, true, false], [sampleN 1, sampleN 2], true) := by
  have hg : ¬(st.mp_reader = false ∨ st.mp_mutex = false) := by simp [hr, hm]
  have hfalse : ¬ st.m_changes.length + u < st.max_samples →
      received_change st c u = some (false, st, c) := by
    intro hge
    unfold received_change
    rw [if_neg hg]
    simp only [hk, hkind]
    simp only [received_change_keep_all_no_key, if_neg hge]
  have htrue : st.m_changes.length + u < st.max_samples →
      received_change st c u =
        some (true, { st with
          m_changes := st.m_changes ++ [c],
          m_isHistoryFull :=
            (decide (st.m_changes.length + 1 = st.maximumReservedCaches)) }, c) := by
    intro hlt
    have hnf : st.m_isHistoryFull = false := by
      rcases hinv with ⟨hle, hfull⟩
      rw [hfull]
      simp only [decide_eq_false_iff_not]
      omega
    unfold received_change
    rw [if_neg hg]
    simp only [hk, hkind]
    simp only [received_change_keep_all_no_key, if_pos hlt, add_received_change_eq st c hnf]
    rw [hk, hkind]
  refine ⟨⟨?_, ?_⟩, ?_, ?_, by decide⟩
  · rintro ⟨st', hst⟩
    by_cases hlt : st.m_changes.length + u < st.max_samples
    · exact hlt
    · rw [hfalse hlt] at hst
      simp at hst
  · intro hlt
    exact ⟨_, htrue hlt⟩
  · intro hlt
    rw [htrue hlt]
    simp
  · exact hfalse

/-- C6 witness: the statement at the concrete `max_samples = 2` history. -/
theorem c6_witness :
    (stC6.has_keys = false ∧ stC6.kind = HistoryKind.KEEP_ALL ∧ stC6.mp_reader = true ∧
     stC6.mp_mutex = true ∧ stC6.maximumReservedCaches = stC6.max_samples ∧
     historyInvariant stC6 ∧ stC6.m_changes.length + 0 < stC6.max_samples) ∧
    (received_change stC6 (sampleN 1) 0).map (fun r => (r.1, r.2.1.m_changes)) =
      some (true, stC6.m_changes ++ [sampleN 1]) :=
  ⟨⟨rfl, rfl, rfl, rfl, by decide, by decide, by decide⟩,
   (c6_keep_all_no_key stC6 (sampleN 1) 0 rfl rfl rfl rfl (by decide) (by decide)).2.1
     (by decide)⟩

/-! Map lemmas for the instance table. -/

theorem mapInsert_length_of_absent {m : List (Nat × KeyedChanges)} {k : Nat}
    (v : KeyedChanges) (h : mapFind m k = none) :
    (mapInsert k v m).length = m.length + 1 := by
  induction m with
  | nil => rfl
  | cons e rest ih =>
    unfold mapFind at h
    split at h
    · simp at h
    next hne =>
      unfold mapInsert
      split
      · simp
      · split
        next heq => exact absurd heq.symm hne
        · simp [ih h]

theorem mapErase_of_find_none {m : List (Nat × KeyedChanges)} {k : Nat}
    (h : mapFind m k = none) : mapErase k m = m := by
  induction m with
  | nil => rfl
  | cons e rest ih =>
    unfold mapFind at h
    split at h
    · simp at h
    next hne =>
      unfold mapErase
      rw [if_neg hne, ih h]

theorem mapFind_mapErase_none {m : List (Nat × KeyedChanges)} {k h : Nat}
    (hf : mapFind m h = none) : mapFind (mapErase k m) h = none := by
  induction m with
  | nil => rfl
  | cons e rest ih =>
    unfold mapFind at hf
    split at hf
    · simp at hf
    next hne =>
      unfold mapErase
      split
      · exact ih hf
      · unfold mapFind
        rw [if_neg hne]
        exact ih hf

theorem mapFind_eq_none_of_not_mem_keys {m : List (Nat × KeyedChanges)} {k : Nat}
    (h : k ∉ m.map Prod.fst) : mapFind m k = none := by
  induction m with
  | nil => rfl
  | cons e rest ih =>
    simp only [List.map_cons, List.mem_cons] at h
    push_neg at h
    unfold mapFind
    rw [if_neg (fun hh => h.1 hh.symm)]
    exact ih h.2

theorem mapErase_length_of_mem {m : List (Nat × KeyedChanges)} {e : Nat × KeyedChanges}
    (hnd : (m.map Prod.fst).Nodup) (hm : e ∈ m) :
    (mapErase e.1 m).length + 1 = m.length := by
  induction m with
  | nil => simp at hm
  | cons x rest ih =>
    simp only [List.map_cons, List.nodup_cons] at hnd
    unfold mapErase
    by_cases hx : x.1 = e.1
    · rw [if_pos hx]
      have hnone : mapFind rest e.1 = none := by
        rw [← hx]
        exact mapFind_eq_none_of_not_mem_keys hnd.1
      rw [mapErase_of_find_none hnone]
      simp
    · rw [if_neg hx]
      have he : e ∈ rest := by
        rcases List.mem_cons.mp hm with rfl | h2
        · exact absurd rfl hx
        · exact h2
      have h3 := ih hnd.2 he
      simp only [List.length_cons]
      omega

/-! Claim C4. -/

/-- C4: resolving a handle absent from the instance table succeeds by
inserting a fresh empty entry while `instance_table.size() < max_instances`;
at capacity it succeeds only by erasing the first entry whose
`cache_changes` is empty and inserting the new handle in its place (the
table size is preserved), and fails otherwise; in all cases the table size
stays within `max_instances`. -/
theorem c4_find_key_instance_slots (st : HistoryState) (h : Nat)
    (hnd : (st.keyed_changes.map Prod.fst).Nodup)
    (hsz : st.keyed_changes.length ≤ st.max_instances)
    (habs : mapFind st.keyed_changes h = none) :
    (st.keyed_changes.length < st.max_instances →
      find_key st h = (true, mapInsert h {} st.keyed_changes) ∧
      (mapInsert h {} st.keyed_changes).length = st.keyed_changes.length + 1) ∧
    (¬ st.keyed_changes.length < st.max_instances →
      (∀ e, findFirst? (fun x => x.2.cache_changes.isEmpty) st.keyed_changes = some e →
        e ∈ st.keyed_changes ∧ e.2.cache_changes = [] ∧
        find_key st h = (true, mapInsert h {} (mapErase e.1 st.keyed_changes)) ∧
        (mapInsert h {} (mapErase e.1 st.keyed_changes)).length =
          st.keyed_changes.length) ∧
      (findFirst? (fun x => x.2.cache_changes.isEmpty) st.keyed_changes = none →
        find_key st h = (false, st.keyed_changes))) ∧
    (find_key st h).2.length ≤ st.max_instances := by
  have hfk : find_key st h =
      (if st.keyed_changes.length < st.max_instances then
        (true, mapInsert h {} st.keyed_changes)
      else
        match findFirst? (fun e => e.2.cache_changes.isEmpty) st.keyed_changes with
        | some e => (true, mapInsert h {} (mapErase e.1 st.keyed_changes))
        | none => (false, st.keyed_changes)) := by
    unfold find_key
    rw [habs]
  have hreclaim : ∀ e, findFirst? (fun x => x.2.cache_changes.isEmpty) st.keyed_changes =
        some e →
      (mapInsert h {} (mapErase e.1 st.keyed_changes)).length = st.keyed_changes.length := by
    intro e he
    obtain ⟨hmem, _⟩ := findFirst?_mem he
    have h1 := mapInsert_length_of_absent ({} : KeyedChanges)
      (mapFind_mapErase_none (k := e.1) habs)
    have h2 := mapErase_length_of_mem hnd hmem
    omega
  refine ⟨?_, ?_, ?_⟩
  · intro hlt
    rw [hfk, if_pos hlt]
    exact ⟨rfl, mapInsert_length_of_absent {} habs⟩
  · intro hge
    refine ⟨?_, ?_⟩
    · intro e he
      obtain ⟨hmem, hempty⟩ := findFirst?_mem he
      refine ⟨hmem, ?_, ?_, hreclaim e he⟩
      · simpa using hempty
      · rw [hfk, if_neg hge, he]
    · intro hn
      rw [hfk, if_neg hge, hn]
  · by_cases hlt : st.keyed_changes.length < st.max_instances
    · rw [hfk, if_pos hlt]
      show (mapInsert h {} st.keyed_changes).length ≤ st.max_instances
      rw [mapInsert_length_of_absent {} habs]
      omega
    · cases hscan : findFirst? (fun x => x.2.cache_changes.isEmpty) st.keyed_changes with
      | some e =>
        have hv : find_key st h =
            (true, mapInsert h {} (mapErase e.1 st.keyed_changes)) := by
          rw [hfk, if_neg hlt, hscan]
        rw [hv]
        show (mapInsert h {} (mapErase e.1 st.keyed_changes)).length ≤ st.max_instances
        rw [hreclaim e hscan]
        exact hsz
      | none =>
        have hv : find_key st h = (false, st.keyed_changes) := by
          rw [hfk, if_neg hlt, hscan]
        rw [hv]
        exact hsz

/-- C4 witness: slot allocation at a concrete keyed history with room. -/
theorem c4_witness :
    ((stC2.keyed_changes.map Prod.fst).Nodup ∧
     stC2.keyed_changes.length ≤ stC2.max_instances ∧
     mapFind stC2.keyed_changes 3 = none ∧
     stC2.keyed_changes.length < stC2.max_instances) ∧
    (find_key stC2 3 = (true, mapInsert 3 {} stC2.keyed_changes) ∧
     (mapInsert 3 {} stC2.keyed_changes).length = stC2.keyed_changes.length + 1) :=
  ⟨⟨by decide, by decide, by decide, by decide⟩,
   (c4_find_key_instance_slots stC2 3 (by decide) (by decide) (by decide)).1 (by decide)⟩

/-! Claim C7. -/

/-- C7: a QoS value of 0 for `max_samples`, `max_instances` or
`max_samples_per_instance` is rewritten at construction to the `int32_t`
maximum, so every admission decision reading the member copy sees an
effectively unbounded limit; the change-store capacity derived at
construction for KEEP_LAST is `depth` (unkeyed) or `depth * max_instances`
(keyed, from the raw QoS), and a derived capacity of 0 — the result of a
zero QoS input — never trips `is_full` (the store grows without bound);
with the table bound rewritten to `int32_t` max, instance creation below
that bound always succeeds. -/
theorem c7_zero_qos_unlimited :
    (∀ (k tn : Bool) (qos : DataReaderQos), qos.resource_limits.max_samples = 0 →
      (mkDataReaderHistory k tn qos).max_samples = int32Max) ∧
    (∀ (k tn : Bool) (qos : DataReaderQos), qos.resource_limits.max_instances = 0 →
      (mkDataReaderHistory k tn qos).max_instances = int32Max) ∧
    (∀ (k tn : Bool) (qos : DataReaderQos),
      qos.resource_limits.max_samples_per_instance = 0 →
      (mkDataReaderHistory k tn qos).max_samples_per_instance = int32Max) ∧
    (∀ (k tn : Bool) (qos : DataReaderQos), qos.history.kind = HistoryKind.KEEP_LAST →
      (mkDataReaderHistory k tn qos).maximumReservedCaches =
        (if k then qos.history.depth * qos.resource_limits.max_instances
         else qos.history.depth)) ∧
    (∀ (st : HistoryState) (c : CacheChange), st.maximumReservedCaches = 0 →
      st.m_isHistoryFull = false →
      add_received_change st c = (true, { st with m_changes := st.m_changes ++ [c] })) ∧
    (∀ (st : HistoryState) (h : Nat), st.max_instances = int32Max →
      st.keyed_changes.length < int32Max → (find_key st h).1 = true) := by
  refine ⟨?_, ?_, ?_, ?_, ?_, ?_⟩
  · intro k tn qos h0
    simp [mkDataReaderHistory, h0]
  · intro k tn qos h0
    simp [mkDataReaderHistory, h0]
  · intro k tn qos h0
    simp [mkDataReaderHistory, h0]
  · intro k tn qos hkind
    simp [mkDataReaderHistory, to_history_attributes, hkind]
  · intro st c hcap hnf
    rw [add_received_change_eq st c hnf]
    have hd : decide (st.m_changes.length + 1 = st.maximumReservedCaches) = false := by
      rw [hcap]
      simp
    rw [hd, ← hnf]
  · intro st h hmax hlen
    unfold find_key
    split
    · rfl
    · rw [hmax, if_pos hlen]

/-- QoS with all three resource limits set to 0 ("unlimited"). -/
def qosZ : DataReaderQos :=
  { history := { kind := HistoryKind.KEEP_ALL, depth := 1 },
    resource_limits := { max_samples := 0, max_instances := 0,
                         max_samples_per_instance := 0, allocated_samples := 0 } }

/-- The attached history built from `qosZ`. -/
def stZ : HistoryState := attachReader (mkDataReaderHistory false false qosZ)

/-- C7 witness: the zero-QoS rewrites and unlimited behaviors at `qosZ`. -/
theorem c7_witness :
    (qosZ.resource_limits.max_samples = 0 ∧ stZ.maximumReservedCaches = 0 ∧
     stZ.m_isHistoryFull = false ∧ stZ.max_instances = int32Max ∧
     stZ.keyed_changes.length < int32Max) ∧
    ((mkDataReaderHistory false false qosZ).max_samples = int32Max ∧
     add_received_change stZ (sampleN 1) =
       (true, { stZ with m_changes := stZ.m_changes ++ [sampleN 1] }) ∧
     (find_key stZ 5).1 = true) :=
  ⟨⟨rfl, by decide, rfl, by decide, by decide⟩,
   ⟨c7_zero_qos_unlimited.1 false false qosZ rfl,
    c7_zero_qos_unlimited.2.2.2.2.1 stZ (sampleN 1) (by decide) rfl,
    c7_zero_qos_unlimited.2.2.2.2.2 stZ 5 (by decide) (by decide)⟩⟩
